import Mathlib

/-!
Shallow embedding of the event-timing core of the whenwx repository.

The two execution modes are embedded per location / per grid cell:

* the on-demand engine, from `src/api/src/on_demand.py`
  (`_compute_first_breach_and_duration`, `_compute_next_breach`,
  and the surrounding `compute_event_metrics` pipeline), and
* the batch engine, from `src/backend/src/processors/base.py`
  (`WeatherProcessor.compute_mask`, `compute_first_breach`,
  `compute_duration`, `compute_next_breach`), scalarised to a single
  grid cell: every vectorised xarray/numpy operation is applied to one
  1-D series, which is exactly what it computes cell-wise.

Offsets (forecast lead times) are modelled as rationals measured in
hours; sample values as rationals, with `none` standing for a
non-finite float (NaN/Inf).  Breach times are reported as offsets from
the forecast initialisation time; both Python engines add the same
`forecast_init_time` constant on top, so comparisons between them are
unaffected by this normalisation.
-/

namespace WhenWX

/-- The four nullable result fields shared by both engines
(`EventMetrics` in on_demand.py, the four data variables written by
`WeatherProcessor.compute_metrics` in base.py).  Breach times are
offsets in hours from the forecast initialisation time. -/
structure EventMetrics where
  first_breach_time : Option ℚ
  duration_hours : Option ℚ
  next_breach_time : Option ℚ
  next_duration_hours : Option ℚ
deriving DecidableEq

/-- Index of the first `true` in a boolean mask, if any: the value of
`np.where(mask)[0][0]` guarded by `len(true_indices) == 0`. -/
def findFirst : List Bool → Option Nat
  | [] => none
  | b :: rest => if b then some 0 else (findFirst rest).map (· + 1)

/-- Number of leading `true` entries of a boolean list. -/
def countLeadingTrue : List Bool → Nat
  | [] => 0
  | b :: rest => if b then countLeadingTrue rest + 1 else 0

/-- The scan `end_idx = i; while end_idx < len(mask) and mask[end_idx]:
end_idx += 1` (on_demand.py lines 239-241 and 294-295), expressed as
the start index plus the number of leading `true`s of the remaining
suffix, which is exactly where the while loop stops. -/
def scanEnd (mask : List Bool) (i : Nat) : Nat :=
  i + countLeadingTrue (mask.drop i)

/-- `_compute_first_breach_and_duration` (on_demand.py lines 211-260).
Returns (first breach offset, duration in hours, end index of the
first episode).  `offsets.getLast?.getD 0` is `time_coords[-1]`;
all list accesses are in bounds whenever the Python ones are
(`len(mask) == len(time_coords)` and a `true` exists). -/
def computeFirstBreachAndDuration (mask : List Bool) (offsets : List ℚ) :
    Option ℚ × Option ℚ × Nat :=
  match findFirst mask with
  | none => (none, none, mask.length)
  | some first_idx =>
    let first_breach := offsets.getD first_idx 0
    let end_idx := scanEnd mask (first_idx + 1)
    let duration :=
      if end_idx < offsets.length then
        offsets.getD end_idx 0 - offsets.getD first_idx 0
      else
        offsets.getLast?.getD 0 - offsets.getD first_idx 0
    (some first_breach, some duration, end_idx)

/-- `_compute_next_breach` (on_demand.py lines 263-315): searches
`mask[first_end_idx:]` for the next `true` and measures the following
contiguous episode the same way as the first one. -/
def computeNextBreach (mask : List Bool) (offsets : List ℚ)
    (first_end_idx : Nat) : Option ℚ × Option ℚ :=
  match findFirst (mask.drop first_end_idx) with
  | none => (none, none)
  | some j =>
    let next_idx := first_end_idx + j
    let next_breach := offsets.getD next_idx 0
    let next_end_idx := scanEnd mask (next_idx + 1)
    let duration :=
      if next_end_idx < offsets.length then
        offsets.getD next_end_idx 0 - offsets.getD next_idx 0
      else
        offsets.getLast?.getD 0 - offsets.getD next_idx 0
    (some next_breach, some duration)

/-- The whole on-demand timing computation for one location: first
breach and duration, then next breach using the first episode's end
index, exactly as `compute_event_metrics` chains the two helpers
(on_demand.py lines 162-170). -/
def onDemandCompute (mask : List Bool) (offsets : List ℚ) : EventMetrics :=
  let fbd := computeFirstBreachAndDuration mask offsets
  let nb := computeNextBreach mask offsets fbd.2.2
  ⟨fbd.1, fbd.2.1, nb.1, nb.2⟩

/-- `np.argmax` over a boolean array: index of the first `true`, or 0
when every entry is `false`. -/
def argmaxBool (mask : List Bool) : Nat :=
  (findFirst mask).getD 0

/-- The boolean array `not_mask & (time_indices > start)` of
`WeatherProcessor.compute_duration` (base.py lines 129-131),
element-wise over the index range. -/
def notMaskAfter (mask : List Bool) (start : Nat) : List Bool :=
  (List.range mask.length).map
    (fun i => !(mask.getD i false) && decide (start < i))

/-- The boolean array `mask & (time_indices >= start)` of
`WeatherProcessor.compute_next_breach` (base.py lines 181-184). -/
def maskAfter (mask : List Bool) (start : Nat) : List Bool :=
  (List.range mask.length).map
    (fun i => mask.getD i false && decide (start ≤ i))

/-- End index of the contiguous episode starting after `start` in the
batch engine: `argmax(not_mask_after)` where some later `false`
exists, otherwise `n_times` (base.py lines 133-138 and 200-209). -/
def batchEndIdx (mask : List Bool) (start : Nat) : Nat :=
  let nma := notMaskAfter mask start
  if nma.any id then argmaxBool nma else mask.length

/-- `WeatherProcessor.compute_first_breach` (base.py lines 66-93) at
one grid cell: `idxmax` of a boolean series returns the time
coordinate of the first `true`, masked to null where the condition is
never met. -/
def batchComputeFirstBreach (mask : List Bool) (offsets : List ℚ) :
    Option ℚ :=
  if mask.any id then some (offsets.getD (argmaxBool mask) 0) else none

/-- `WeatherProcessor.compute_duration` (base.py lines 95-148) at one
grid cell: duration is `(end_idx - first_idx) * timestep_hours`, with
`end_idx = n_times` when the episode never ends, and null where the
condition is never met.  Also returns `end_idx` for the next-breach
computation. -/
def batchComputeDuration (mask : List Bool) (timestep : ℚ) :
    Option ℚ × Nat :=
  let first_idx := argmaxBool mask
  let end_idx := batchEndIdx mask first_idx
  let duration : ℚ := ((end_idx : ℚ) - (first_idx : ℚ)) * timestep
  (if mask.any id then some duration else none, end_idx)

/-- `WeatherProcessor.compute_next_breach` (base.py lines 150-218) at
one grid cell. -/
def batchComputeNextBreach (mask : List Bool) (offsets : List ℚ)
    (first_end_idx : Nat) (timestep : ℚ) : Option ℚ × Option ℚ :=
  let ma := maskAfter mask first_end_idx
  let has_next := ma.any id
  let next_idx := argmaxBool ma
  let next_breach :=
    if has_next then some (offsets.getD next_idx 0) else none
  let next_end_idx := batchEndIdx mask next_idx
  let next_duration : ℚ := ((next_end_idx : ℚ) - (next_idx : ℚ)) * timestep
  (next_breach, if has_next then some next_duration else none)

/-- The batch engine end to end at one grid cell, chaining the three
computations as `WeatherProcessor.compute_metrics` does
(base.py lines 257-263). -/
def batchCompute (mask : List Bool) (offsets : List ℚ) (timestep : ℚ) :
    EventMetrics :=
  let fb := batchComputeFirstBreach mask offsets
  let dur := batchComputeDuration mask timestep
  let nb := batchComputeNextBreach mask offsets dur.2 timestep
  ⟨fb, dur.1, nb.1, nb.2⟩

/-- Errors raised by `compute_event_metrics` before the timing
computation: a missing variable (on_demand.py line 136) and an
unrecognised comparison operator (line 156); both are `ValueError`s in
the Python, distinguished here by their message. -/
inductive ApiError where
  | variableNotFound (varName : String)
  | unknownOperator (op : String)
deriving DecidableEq

/-- The operator dispatch of `compute_event_metrics` (on_demand.py
lines 145-156), identical to `WeatherProcessor.compute_mask` (base.py
lines 43-64).  A `none` value models a NaN sample, for which every
numpy comparison (including the `eq` tolerance test) is `False`. -/
def computeMask (op : String) (threshold : ℚ)
    (values : List (Option ℚ)) : Except ApiError (List Bool) :=
  if op = "lt" then
    .ok (values.map (fun v => match v with
      | some x => decide (x < threshold)
      | none => false))
  else if op = "gt" then
    .ok (values.map (fun v => match v with
      | some x => decide (threshold < x)
      | none => false))
  else if op = "lte" then
    .ok (values.map (fun v => match v with
      | some x => decide (x ≤ threshold)
      | none => false))
  else if op = "gte" then
    .ok (values.map (fun v => match v with
      | some x => decide (threshold ≤ x)
      | none => false))
  else if op = "eq" then
    .ok (values.map (fun v => match v with
      | some x => decide (|x - threshold| < 1e-6)
      | none => false))
  else
    .error (.unknownOperator op)

/-- The variable names treated as temperatures by the display
conversion (on_demand.py line 182). -/
def TEMP_VARIABLES : List String := ["2t", "t2m", "2m_temperature"]

/-- Round-half-to-even to an integer, the tie-breaking rule of
Python's builtin `round`. -/
def roundHalfEven (x : ℚ) : ℤ :=
  let f := ⌊x⌋
  let r := x - (f : ℚ)
  if r < 1 / 2 then f
  else if 1 / 2 < r then f + 1
  else if 2 ∣ f then f else f + 1

/-- Python's `round(x, 2)`: round to two decimal places. -/
def round2 (x : ℚ) : ℚ :=
  (roundHalfEven (x * 100) : ℚ) / 100

/-- The `values_display` list comprehensions of `compute_event_metrics`
(on_demand.py lines 181-185): Kelvin-to-Celsius conversion for
temperature variables, rounding to two decimals, and `None` for
non-finite samples. -/
def valuesDisplay (varName : String) (raw : List (Option ℚ)) :
    List (Option ℚ) :=
  if varName ∈ TEMP_VARIABLES then
    raw.map (fun v => match v with
      | some x => some (round2 (x - 273.15))
      | none => none)
  else
    raw.map (fun v => match v with
      | some x => some (round2 x)
      | none => none)

/-- The pairing and filtering of the supplemental time series
(on_demand.py lines 187-192): zip lead times with display values, drop
pairs whose value is `None`, and unzip back into the two output
lists. -/
def formatSeries (varName : String) (leadTimes : List ℚ)
    (raw : List (Option ℚ)) : List ℚ × List ℚ :=
  let display := valuesDisplay varName raw
  let paired := (leadTimes.zip display).filterMap
    (fun p => match p.2 with
      | some v => some (p.1, v)
      | none => none)
  (paired.map Prod.fst, paired.map Prod.snd)

/-- The fields of the on-demand response that the timing claims are
about: the four timing results and the two supplemental series
lists. -/
structure OnDemandResponse where
  metrics : EventMetrics
  leadTimesHours : List ℚ
  valuesDisplayOut : List ℚ
deriving DecidableEq

/-- `compute_event_metrics` (on_demand.py lines 89-208) for one
queried point, with the dataset abstracted to: whether it contains the
requested variable, and the extracted point series (offsets in hours
and raw values, `none` for non-finite).  The statement order of the
Python is preserved: the variable lookup (line 135) runs — and can
fail — before the operator dispatch (line 145), which in turn runs
only after the series has been loaded (line 139). -/
def computeEventMetrics (variablePresent : Bool) (varName : String)
    (threshold : ℚ) (op : String) (offsets : List ℚ)
    (raw : List (Option ℚ)) : Except ApiError OnDemandResponse :=
  if variablePresent then
    match computeMask op threshold raw with
    | .error e => .error e
    | .ok mask =>
      let m := onDemandCompute mask offsets
      let series := formatSeries varName offsets raw
      .ok ⟨m, series.1, series.2⟩
  else
    .error (.variableNotFound varName)

/-- The per-sample display transform described by the spec's formatter
contract, for comparison with the code's `valuesDisplay`: convert
storage Kelvin to display Celsius for temperature variables, then
round to two decimals. -/
def displaySpecValue (varName : String) (x : ℚ) : ℚ :=
  if varName ∈ TEMP_VARIABLES then round2 (x - 273.15) else round2 x

/-! ### Helper lemmas about the scanning primitives -/

theorem getD_eq_false_of_length_le (l : List Bool) (i : Nat)
    (h : l.length ≤ i) : l.getD i false = false := by
  rw [List.getD_eq_getElem?_getD, List.getElem?_eq_none h]
  rfl

theorem getD_drop (l : List Bool) (i j : Nat) :
    (l.drop i).getD j false = l.getD (i + j) false := by
  rw [List.getD_eq_getElem?_getD, List.getD_eq_getElem?_getD,
    List.getElem?_drop]

theorem findFirst_isSome_iff (l : List Bool) :
    (findFirst l).isSome = true ↔ l.any id = true := by
  induction l with
  | nil => simp [findFirst]
  | cons b rest ih => cases b <;> simp [findFirst, ih]

theorem findFirst_eq_none_iff (l : List Bool) :
    findFirst l = none ↔ ∀ b ∈ l, b = false := by
  induction l with
  | nil => simp [findFirst]
  | cons b rest ih => cases b <;> simp [findFirst, ih]

theorem findFirst_eq_some_iff (l : List Bool) (j : Nat) :
    findFirst l = some j
      ↔ j < l.length ∧ l.getD j false = true
        ∧ ∀ k, k < j → l.getD k false = false := by
  induction l generalizing j with
  | nil => simp [findFirst]
  | cons b rest ih =>
    cases b
    · cases j with
      | zero => simp [findFirst]
      | succ j' =>
        rw [show findFirst (false :: rest) = (findFirst rest).map (· + 1)
          from rfl]
        constructor
        · intro h
          obtain ⟨j'', hj'', heq⟩ := Option.map_eq_some'.mp h
          have hje : j'' = j' := by omega
          rw [hje] at hj''
          obtain ⟨h1, h2, h3⟩ := (ih j').mp hj''
          refine ⟨by simpa using h1, by simpa using h2, ?_⟩
          intro k hk
          cases k with
          | zero => simp
          | succ k' => simpa using h3 k' (by omega)
        · intro h
          obtain ⟨h1, h2, h3⟩ := h
          have hrest : findFirst rest = some j' := (ih j').mpr
            ⟨by simpa using h1, by simpa using h2,
              fun k hk => by simpa using h3 (k + 1) (by omega)⟩
          simp [hrest]
    · cases j with
      | zero => simp [findFirst]
      | succ j' =>
        constructor
        · intro h
          simp [findFirst] at h
        · intro h
          have := h.2.2 0 (by omega)
          simp at this

theorem getD_false_of_all_false (l : List Bool)
    (h : ∀ b ∈ l, b = false) (k : Nat) : l.getD k false = false := by
  by_cases hk : k < l.length
  · rw [List.getD_eq_getElem?_getD, List.getElem?_eq_getElem hk]
    exact h _ (List.getElem_mem hk)
  · exact getD_eq_false_of_length_le l k (by omega)

theorem any_iff_exists_getD (l : List Bool) :
    l.any id = true ↔ ∃ i, l.getD i false = true := by
  rw [List.any_eq_true]
  constructor
  · intro h
    obtain ⟨x, hx, hpx⟩ := h
    obtain ⟨i, hi⟩ := List.mem_iff_get.mp hx
    refine ⟨i.1, ?_⟩
    rw [List.getD_eq_getElem?_getD, List.getElem?_eq_getElem i.isLt]
    simp only [List.get_eq_getElem] at hi
    rw [hi]
    simpa using hpx
  · intro h
    obtain ⟨i, hi⟩ := h
    by_cases hlen : i < l.length
    · refine ⟨l[i], List.getElem_mem hlen, ?_⟩
      rw [List.getD_eq_getElem?_getD, List.getElem?_eq_getElem hlen] at hi
      simpa using hi
    · rw [getD_eq_false_of_length_le l i (by omega)] at hi
      cases hi

theorem countLeadingTrue_le_length (l : List Bool) :
    countLeadingTrue l ≤ l.length := by
  induction l with
  | nil => simp [countLeadingTrue]
  | cons b rest ih =>
    cases b
    · simp [countLeadingTrue]
    · simp [countLeadingTrue]
      omega

theorem countLeadingTrue_getD_false (l : List Bool)
    (h : countLeadingTrue l < l.length) :
    l.getD (countLeadingTrue l) false = false := by
  induction l with
  | nil => simp at h
  | cons b rest ih =>
    cases b
    · simp [countLeadingTrue]
    · have hc : countLeadingTrue (true :: rest)
          = countLeadingTrue rest + 1 := by simp [countLeadingTrue]
      rw [hc] at h ⊢
      rw [List.getD_cons_succ]
      simp only [List.length_cons] at h
      exact ih (by omega)

theorem scanEnd_ge (mask : List Bool) (i : Nat) : i ≤ scanEnd mask i :=
  Nat.le_add_right i _

theorem scanEnd_le_length (mask : List Bool) (i : Nat)
    (h : i ≤ mask.length) : scanEnd mask i ≤ mask.length := by
  have hc := countLeadingTrue_le_length (mask.drop i)
  rw [List.length_drop] at hc
  simp only [scanEnd]
  omega

theorem scanEnd_getD_false (mask : List Bool) (i : Nat)
    (h : scanEnd mask i < mask.length) :
    mask.getD (scanEnd mask i) false = false := by
  have hlt : countLeadingTrue (mask.drop i) < (mask.drop i).length := by
    rw [List.length_drop]
    simp only [scanEnd] at h
    omega
  have hd := countLeadingTrue_getD_false (mask.drop i) hlt
  rw [getD_drop] at hd
  exact hd

theorem length_maskAfter (mask : List Bool) (s : Nat) :
    (maskAfter mask s).length = mask.length := by
  simp [maskAfter]

theorem getD_maskAfter (mask : List Bool) (s i : Nat) :
    (maskAfter mask s).getD i false
      = (mask.getD i false && decide (s ≤ i)) := by
  by_cases h : i < mask.length
  · rw [List.getD_eq_getElem?_getD,
      List.getElem?_eq_getElem (by rwa [length_maskAfter])]
    simp [maskAfter]
  · rw [getD_eq_false_of_length_le _ _ (by rw [length_maskAfter]; omega),
      getD_eq_false_of_length_le mask i (by omega)]
    simp

theorem length_notMaskAfter (mask : List Bool) (s : Nat) :
    (notMaskAfter mask s).length = mask.length := by
  simp [notMaskAfter]

theorem getD_notMaskAfter (mask : List Bool) (s i : Nat)
    (h : i < mask.length) :
    (notMaskAfter mask s).getD i false
      = (!(mask.getD i false) && decide (s < i)) := by
  rw [List.getD_eq_getElem?_getD,
    List.getElem?_eq_getElem (by rwa [length_notMaskAfter])]
  simp [notMaskAfter]

theorem maskAfter_any_iff (mask : List Bool) (s : Nat) :
    (maskAfter mask s).any id = true
      ↔ ∃ i, s ≤ i ∧ mask.getD i false = true := by
  rw [any_iff_exists_getD]
  constructor
  · intro h
    obtain ⟨i, hi⟩ := h
    rw [getD_maskAfter] at hi
    simp only [Bool.and_eq_true, decide_eq_true_eq] at hi
    exact ⟨i, hi.2, hi.1⟩
  · intro h
    obtain ⟨i, hsi, hi⟩ := h
    refine ⟨i, ?_⟩
    rw [getD_maskAfter, hi]
    simp [hsi]

theorem findFirst_drop_isSome_iff (mask : List Bool) (s : Nat) :
    (findFirst (mask.drop s)).isSome = true
      ↔ ∃ i, s ≤ i ∧ mask.getD i false = true := by
  rw [findFirst_isSome_iff, any_iff_exists_getD]
  constructor
  · intro h
    obtain ⟨j, hj⟩ := h
    rw [getD_drop] at hj
    exact ⟨s + j, Nat.le_add_right s j, hj⟩
  · intro h
    obtain ⟨i, hsi, hi⟩ := h
    refine ⟨i - s, ?_⟩
    rw [getD_drop, Nat.add_sub_cancel' hsi]
    exact hi

theorem pairwise_getD_lt (offsets : List ℚ)
    (h : offsets.Pairwise (· < ·)) (i j : Nat) (hij : i < j)
    (hj : j < offsets.length) :
    offsets.getD i 0 < offsets.getD j 0 := by
  have hi : i < offsets.length := by omega
  rw [List.getD_eq_getElem?_getD, List.getElem?_eq_getElem hi,
    List.getD_eq_getElem?_getD, List.getElem?_eq_getElem hj]
  have := List.pairwise_iff_get.mp h ⟨i, hi⟩ ⟨j, hj⟩ hij
  simpa using this

theorem maskAfter_any_false_of_all_false (mask : List Bool)
    (hall : ∀ b ∈ mask, b = false) (s : Nat) :
    (maskAfter mask s).any id = false := by
  rw [Bool.eq_false_iff]
  intro hc
  obtain ⟨i, _, hi⟩ := (maskAfter_any_iff mask s).mp hc
  rw [getD_false_of_all_false mask hall i] at hi
  cases hi

theorem argmaxBool_eq_of_findFirst (l : List Bool) (n : Nat)
    (h : findFirst l = some n) : argmaxBool l = n := by
  simp [argmaxBool, h]

theorem zip_map_fst_snd_eq (l : List (ℚ × ℚ)) :
    (l.map Prod.fst).zip (l.map Prod.snd) = l := by
  induction l with
  | nil => rfl
  | cons a t ih => simp [ih]

theorem displaySpecValue_eq_round2 (varName : String) (x : ℚ) :
    displaySpecValue varName x
      = round2 (if varName ∈ TEMP_VARIABLES then x - 273.15 else x) := by
  by_cases h : varName ∈ TEMP_VARIABLES <;> simp [displaySpecValue, h]

theorem valuesDisplay_eq_map (varName : String) (raw : List (Option ℚ)) :
    valuesDisplay varName raw
      = raw.map (Option.map (displaySpecValue varName)) := by
  by_cases h : varName ∈ TEMP_VARIABLES
  · simp only [valuesDisplay, if_pos h]
    refine List.map_congr_left (fun a _ => ?_)
    cases a <;> simp [displaySpecValue, h]
  · simp only [valuesDisplay, if_neg h]
    refine List.map_congr_left (fun a _ => ?_)
    cases a <;> simp [displaySpecValue, h]

theorem zip_map_filterMap (f : ℚ → ℚ) (xs : List ℚ)
    (ys : List (Option ℚ)) :
    ((xs.zip (ys.map (Option.map f))).filterMap
        (fun p => match p.2 with
          | some v => some (p.1, v)
          | none => none))
      = (xs.zip ys).filterMap
          (fun p => match p.2 with
            | some x => some (p.1, f x)
            | none => none) := by
  induction xs generalizing ys with
  | nil => simp
  | cons x xs ih =>
    cases ys with
    | nil => simp
    | cons y ys =>
      cases y <;> simp [List.filterMap_cons, ih]

theorem abs_roundHalfEven_sub_le (y : ℚ) :
    |(roundHalfEven y : ℚ) - y| ≤ 1 / 2 := by
  have hfl : (⌊y⌋ : ℚ) ≤ y := Int.floor_le y
  have hfu : y < ⌊y⌋ + 1 := Int.lt_floor_add_one y
  by_cases h1 : y - (⌊y⌋ : ℚ) < 1 / 2
  · have hval : roundHalfEven y = ⌊y⌋ := by
      simp only [roundHalfEven]
      rw [if_pos h1]
    rw [hval, abs_le]
    constructor <;> linarith
  · by_cases h2 : 1 / 2 < y - (⌊y⌋ : ℚ)
    · have hval : roundHalfEven y = ⌊y⌋ + 1 := by
        simp only [roundHalfEven]
        rw [if_neg h1, if_pos h2]
      rw [hval, abs_le]
      push_cast
      constructor <;> linarith
    · have heq : y - (⌊y⌋ : ℚ) = 1 / 2 :=
        le_antisymm (not_lt.mp h2) (not_lt.mp h1)
      by_cases h3 : 2 ∣ ⌊y⌋
      · have hval : roundHalfEven y = ⌊y⌋ := by
          simp only [roundHalfEven]
          rw [if_neg h1, if_neg h2, if_pos h3]
        rw [hval, abs_le]
        constructor <;> linarith
      · have hval : roundHalfEven y = ⌊y⌋ + 1 := by
          simp only [roundHalfEven]
          rw [if_neg h1, if_neg h2, if_neg h3]
        rw [hval, abs_le]
        push_cast
        constructor <;> linarith

theorem mem_formatSeries_snd (varName : String) (leadTimes : List ℚ)
    (raw : List (Option ℚ)) (v : ℚ)
    (hv : v ∈ (formatSeries varName leadTimes raw).2) :
    ∃ x : ℚ, v = displaySpecValue varName x := by
  simp only [formatSeries] at hv
  rw [List.mem_map] at hv
  obtain ⟨p, hp, hpv⟩ := hv
  rw [List.mem_filterMap] at hp
  obtain ⟨q0, hq0, hq0eq⟩ := hp
  cases hq2 : q0.2 with
  | none =>
    rw [hq2] at hq0eq
    cases hq0eq
  | some w =>
    rw [hq2] at hq0eq
    have hpw : p = (q0.1, w) := by
      injection hq0eq with h
      exact h.symm
    have hmem2 : q0.2 ∈ valuesDisplay varName raw := (List.of_mem_zip hq0).2
    rw [hq2, valuesDisplay_eq_map, List.mem_map] at hmem2
    obtain ⟨o, _, hoeq⟩ := hmem2
    cases o with
    | none => simp at hoeq
    | some x =>
      refine ⟨x, ?_⟩
      simp only [Option.map_some'] at hoeq
      injection hoeq with hxw
      rw [← hpv, hpw]
      exact hxw.symm

/-! ### Claim theorems -/

/-- Claim C1, evidence of the divergence: the batch-mode and the
on-demand engine do not produce identical results on every series.  On
the single-sample breaching series (mask [T], one hourly offset 0 h,
timestep 1 h) the on-demand engine reports a first duration of 0 hours
(measured to the last available offset, on_demand.py lines 251-258),
while the batch engine reports one full timestep, 1 hour
(`end_idx = n_times = 1`, `duration = (1 - 0) * timestep`, base.py
lines 137-142). -/
theorem c1_engines_disagree_on_single_true :
    onDemandCompute [true] [0] = ⟨some 0, some 0, none, none⟩
    ∧ batchCompute [true] [0] 1 = ⟨some 0, some 1, none, none⟩
    ∧ onDemandCompute [true] [0] ≠ batchCompute [true] [0] 1 := by
  have h1 : onDemandCompute [true] [0] = ⟨some 0, some 0, none, none⟩ := by
    norm_num [onDemandCompute, computeFirstBreachAndDuration,
      computeNextBreach, findFirst, scanEnd, countLeadingTrue]
  have h2 : batchCompute [true] [0] 1 = ⟨some 0, some 1, none, none⟩ := by
    norm_num [batchCompute, batchComputeFirstBreach, batchComputeDuration,
      batchComputeNextBreach, batchEndIdx, notMaskAfter, maskAfter,
      argmaxBool, findFirst, List.range_succ]
  refine ⟨h1, h2, ?_⟩
  intro hcontra
  rw [h1, h2] at hcontra
  have hdur := congrArg EventMetrics.duration_hours hcontra
  simp only [Option.some.injEq] at hdur
  norm_num at hdur

/-- Claim C2, evidence that the batch engine violates the
measured-to-the-last-offset rule: on mask [F,T,T] with hourly offsets
[0,1,2] the first episode runs to the series end
(`first_end_idx = 3 = len(mask)`); elapsed(offsets[1], offsets[2]) is
1 hour and the on-demand engine reports exactly that, but the batch
engine reports `(end_idx - first_idx) * timestep = (3 - 1) * 1 = 2`
hours, extrapolating one timestep beyond the last available offset. -/
theorem c2_batch_extrapolates_past_last_offset :
    (onDemandCompute [false, true, true] [0, 1, 2]).duration_hours
      = some (([0, 1, 2] : List ℚ).getD 2 0 - ([0, 1, 2] : List ℚ).getD 1 0)
    ∧ (batchCompute [false, true, true] [0, 1, 2] 1).duration_hours = some 2
    ∧ (batchCompute [false, true, true] [0, 1, 2] 1).duration_hours
      ≠ some (([0, 1, 2] : List ℚ).getD 2 0
          - ([0, 1, 2] : List ℚ).getD 1 0) := by
  have h1 : (onDemandCompute [false, true, true] [0, 1, 2]).duration_hours
      = some 1 := by
    norm_num [onDemandCompute, computeFirstBreachAndDuration,
      computeNextBreach, findFirst, scanEnd, countLeadingTrue]
  have h2 : (batchCompute [false, true, true] [0, 1, 2] 1).duration_hours
      = some 2 := by
    norm_num [batchCompute, batchComputeFirstBreach, batchComputeDuration,
      batchComputeNextBreach, batchEndIdx, notMaskAfter, maskAfter,
      argmaxBool, findFirst, List.range_succ]
  have hval : (([0, 1, 2] : List ℚ).getD 2 0
      - ([0, 1, 2] : List ℚ).getD 1 0) = 1 := by
    norm_num [List.getD]
  rw [hval, h1, h2]
  refine ⟨rfl, rfl, ?_⟩
  intro hcontra
  simp only [Option.some.injEq] at hcontra
  norm_num at hcontra

/-- Claim C8, evidence that the batch engine violates the
isolated-true policy at the series end: the spec (Scenario B and the
tie-break policy) and the on-demand engine give duration 0 for a
single isolated true at the last index, but the batch engine gives one
full timestep.  Mask [F,T] with hourly offsets [0,1]: on-demand yields
first_breach = 1 h and first_duration = 0 h; batch yields
first_duration = 1 h. -/
theorem c8_isolated_true_at_series_end :
    onDemandCompute [false, true] [0, 1] = ⟨some 1, some 0, none, none⟩
    ∧ (batchCompute [false, true] [0, 1] 1).duration_hours = some 1
    ∧ (batchCompute [false, true] [0, 1] 1).duration_hours ≠ some 0 := by
  have h1 : onDemandCompute [false, true] [0, 1]
      = ⟨some 1, some 0, none, none⟩ := by
    norm_num [onDemandCompute, computeFirstBreachAndDuration,
      computeNextBreach, findFirst, scanEnd, countLeadingTrue]
  have h2 : (batchCompute [false, true] [0, 1] 1).duration_hours
      = some 1 := by
    norm_num [batchCompute, batchComputeFirstBreach, batchComputeDuration,
      batchComputeNextBreach, batchEndIdx, notMaskAfter, maskAfter,
      argmaxBool, findFirst, List.range_succ]
  refine ⟨h1, h2, ?_⟩
  rw [h2]
  intro hcontra
  simp only [Option.some.injEq] at hcontra
  norm_num at hcontra

/-- Claim C5, counterexample: on a length-0 mask/offsets pair the
on-demand engine does not fail at all — `np.where` of an empty array
returns an empty index list, `_compute_first_breach_and_duration`
returns `(None, None, 0)` and `_compute_next_breach` returns
`(None, None)`, so the call succeeds with the all-null result.  No
EmptySeriesError (or any other error) exists on this path in the
code. -/
theorem c5_counterexample_empty_series_no_error :
    onDemandCompute [] [] = ⟨none, none, none, none⟩ := rfl

/-- Claim C5 as amended: for a length-0 mask the engine does not fail;
it returns the all-null result, indistinguishable from a
never-breaching series. -/
theorem c5_empty_series_returns_all_null (offsets : List ℚ) :
    onDemandCompute [] offsets = ⟨none, none, none, none⟩ := rfl

/-- Claim C6, counterexample: the unknown-operator rejection is not
configuration-time.  With an operator outside the five recognised
kinds and a dataset missing the requested variable, the pipeline
reports the missing variable — a data error raised while the series is
being looked up (on_demand.py line 136) — because the operator is only
examined at mask-computation time (line 145), after the series has
been loaded (line 139). -/
theorem c6_counterexample_variable_error_preempts_operator :
    computeEventMetrics false "2t" 263.15 "between" [] []
      = .error (.variableNotFound "2t")
    ∧ computeEventMetrics false "2t" 263.15 "between" [] []
      ≠ .error (.unknownOperator "between") := by
  refine ⟨rfl, ?_⟩
  intro h
  rw [show computeEventMetrics false "2t" 263.15 "between" [] []
      = .error (.variableNotFound "2t") from rfl] at h
  simp at h

/-- Claim C6 as amended: an operator outside the five recognised kinds
{lt, gt, lte, gte, eq} does make the computation fail with the
unknown-operator error, but only during mask computation after the
series has been extracted, not before any series is processed. -/
theorem c6_unknown_operator_error_after_series_load
    (varName op : String) (threshold : ℚ) (offsets : List ℚ)
    (raw : List (Option ℚ))
    (hop : op ∉ ["lt", "gt", "lte", "gte", "eq"]) :
    computeEventMetrics true varName threshold op offsets raw
      = .error (.unknownOperator op) := by
  simp only [List.mem_cons, List.not_mem_nil, or_false, not_or] at hop
  obtain ⟨h1, h2, h3, h4, h5⟩ := hop
  simp [computeEventMetrics, computeMask, h1, h2, h3, h4, h5]

/-- Witness for C6's amended theorem at the concrete operator
"between". -/
theorem c6_unknown_operator_error_witness :
    computeEventMetrics true "2t" 263.15 "between" [0] [some 270]
      = .error (.unknownOperator "between") :=
  c6_unknown_operator_error_after_series_load "2t" "between" 263.15 [0]
    [some 270] (by decide)

/-- Claim C7: the eq operator marks a sample as breaching exactly when
the absolute difference to the threshold is below 1e-6; with threshold
10.0 the value 10.0000001 breaches and the value 10.01 does not. -/
theorem c7_eq_operator_tolerance :
    (∀ v t : ℚ, computeMask "eq" t [some v] = .ok [true] ↔ |v - t| < 1e-6)
    ∧ computeMask "eq" 10 [some 10.0000001] = .ok [true]
    ∧ computeMask "eq" 10 [some 10.01] = .ok [false] := by
  refine ⟨fun v t => ?_, ?_, ?_⟩
  · simp +decide [computeMask]
  · simp +decide [computeMask]
    rw [abs_of_pos (by norm_num)]
    norm_num
  · simp +decide [computeMask]
    rw [abs_of_pos (by norm_num)]
    norm_num

/-- Claim C3: first_breach is non-null iff the mask contains at least
one true — for both engines — and an all-false mask of any length
N ≥ 1 yields all four result fields null in both engines. -/
theorem c3_first_breach_nonnull_iff (mask : List Bool) (offsets : List ℚ)
    (timestep : ℚ) (_hlen : mask.length = offsets.length)
    (_hpos : 1 ≤ mask.length) :
    ((onDemandCompute mask offsets).first_breach_time.isSome = true
        ↔ mask.any id = true)
    ∧ ((batchCompute mask offsets timestep).first_breach_time.isSome = true
        ↔ mask.any id = true)
    ∧ ((∀ b ∈ mask, b = false) →
        onDemandCompute mask offsets = ⟨none, none, none, none⟩
        ∧ batchCompute mask offsets timestep
            = ⟨none, none, none, none⟩) := by
  refine ⟨?_, ?_, ?_⟩
  · rw [← findFirst_isSome_iff]
    cases h : findFirst mask with
    | none =>
      simp [onDemandCompute, computeFirstBreachAndDuration, h]
    | some fi =>
      simp [onDemandCompute, computeFirstBreachAndDuration, h]
  · by_cases h : mask.any id = true
    · simp [batchCompute, batchComputeFirstBreach, h]
    · rw [Bool.not_eq_true] at h
      simp [batchCompute, batchComputeFirstBreach, h]
  · intro hall
    have hnone : findFirst mask = none :=
      (findFirst_eq_none_iff mask).mpr hall
    have hany : mask.any id = false := by
      rw [Bool.eq_false_iff]
      intro hc
      obtain ⟨x, hx, hpx⟩ := List.any_eq_true.mp hc
      rw [hall x hx] at hpx
      simp at hpx
    constructor
    · simp [onDemandCompute, computeFirstBreachAndDuration, hnone,
        computeNextBreach, List.drop_length, findFirst]
    · simp [batchCompute, batchComputeFirstBreach, batchComputeDuration,
        batchComputeNextBreach, hany,
        maskAfter_any_false_of_all_false mask hall]

/-- Witness for C3 at the concrete series mask [T,F], offsets [0,1],
timestep 1 h. -/
theorem c3_first_breach_nonnull_iff_witness :
    ((onDemandCompute [true, false] [0, 1]).first_breach_time.isSome = true
      ↔ [true, false].any id = true) :=
  (c3_first_breach_nonnull_iff [true, false] [0, 1] 1 rfl (by norm_num)).1

/-- Claim C4: next_breach is non-null iff a true exists at or after
the index where the first episode ends, and whenever next_breach is
non-null its offset is strictly after the first episode's end offset.
Proved for both engines, each against its own computed end index. -/
theorem c4_next_breach_characterisation (mask : List Bool)
    (offsets : List ℚ) (timestep : ℚ) (e eb : Nat)
    (hlen : mask.length = offsets.length)
    (hmono : offsets.Pairwise (· < ·))
    (he : e = (computeFirstBreachAndDuration mask offsets).2.2)
    (heb : eb = (batchComputeDuration mask timestep).2) :
    ((computeNextBreach mask offsets e).1.isSome = true
        ↔ ∃ i, e ≤ i ∧ mask.getD i false = true)
    ∧ (∀ q, (computeNextBreach mask offsets e).1 = some q →
        offsets.getD e 0 < q)
    ∧ ((batchComputeNextBreach mask offsets eb timestep).1.isSome = true
        ↔ ∃ i, eb ≤ i ∧ mask.getD i false = true)
    ∧ (∀ q, (batchComputeNextBreach mask offsets eb timestep).1 = some q →
        offsets.getD eb 0 < q) := by
  refine ⟨?_, ?_, ?_, ?_⟩
  · -- on-demand: non-null iff a true at or after e
    rw [← findFirst_drop_isSome_iff]
    cases h : findFirst (mask.drop e) with
    | none => simp [computeNextBreach, h]
    | some j => simp [computeNextBreach, h]
  · -- on-demand: strictly after the end offset
    intro q hq
    cases hf : findFirst mask with
    | none =>
      have he' : e = mask.length := by
        rw [he]
        simp [computeFirstBreachAndDuration, hf]
      rw [he'] at hq
      simp [computeNextBreach, List.drop_length, findFirst] at hq
    | some fi =>
      have he' : e = scanEnd mask (fi + 1) := by
        rw [he]
        simp [computeFirstBreachAndDuration, hf]
      cases hj : findFirst (mask.drop e) with
      | none => simp [computeNextBreach, hj] at hq
      | some j =>
        have hq' : q = offsets.getD (e + j) 0 := by
          rw [List.getD_eq_getElem?_getD]
          simp [computeNextBreach, hj] at hq
          exact hq.symm
        obtain ⟨hjlen, hjtrue, _⟩ := (findFirst_eq_some_iff _ j).mp hj
        rw [List.length_drop] at hjlen
        rw [getD_drop] at hjtrue
        have hejlen : e + j < mask.length := by omega
        have helen : e < mask.length := by omega
        have hfalse : mask.getD e false = false := by
          rw [he']
          exact scanEnd_getD_false mask (fi + 1) (by rw [← he']; exact helen)
        have hj0 : 0 < j := by
          rcases Nat.eq_zero_or_pos j with h0 | h0
          · rw [h0, Nat.add_zero] at hjtrue
            rw [hfalse] at hjtrue
            cases hjtrue
          · exact h0
        rw [hq']
        exact pairwise_getD_lt offsets hmono e (e + j) (by omega)
          (by rw [← hlen]; exact hejlen)
  · -- batch: non-null iff a true at or after eb
    rw [← maskAfter_any_iff]
    by_cases h : (maskAfter mask eb).any id = true
    · simp [batchComputeNextBreach, h]
    · rw [Bool.not_eq_true] at h
      simp [batchComputeNextBreach, h]
  · -- batch: strictly after the end offset
    intro q hq
    have hnext : (maskAfter mask eb).any id = true := by
      by_contra h
      rw [Bool.not_eq_true] at h
      simp [batchComputeNextBreach, h] at hq
    have hsome : (findFirst (maskAfter mask eb)).isSome = true :=
      (findFirst_isSome_iff _).mpr hnext
    obtain ⟨n0, hn0⟩ := Option.isSome_iff_exists.mp hsome
    have hargmax : argmaxBool (maskAfter mask eb) = n0 :=
      argmaxBool_eq_of_findFirst _ n0 hn0
    obtain ⟨hn0len, hn0true, _⟩ := (findFirst_eq_some_iff _ n0).mp hn0
    rw [length_maskAfter] at hn0len
    rw [getD_maskAfter] at hn0true
    simp only [Bool.and_eq_true, decide_eq_true_eq] at hn0true
    obtain ⟨hmn0, hebn0⟩ := hn0true
    have hq' : q = offsets.getD n0 0 := by
      rw [List.getD_eq_getElem?_getD]
      simp [batchComputeNextBreach, hnext, hargmax] at hq
      exact hq.symm
    by_cases hends : (notMaskAfter mask (argmaxBool mask)).any id = true
    · have hebeq : eb = argmaxBool (notMaskAfter mask (argmaxBool mask)) := by
        rw [heb]
        simp [batchComputeDuration, batchEndIdx, hends]
      have hsome2 :
          (findFirst (notMaskAfter mask (argmaxBool mask))).isSome = true :=
        (findFirst_isSome_iff _).mpr hends
      obtain ⟨m0, hm0⟩ := Option.isSome_iff_exists.mp hsome2
      have hebm0 : eb = m0 := by
        rw [hebeq]
        exact argmaxBool_eq_of_findFirst _ m0 hm0
      obtain ⟨hm0len, hm0true, _⟩ := (findFirst_eq_some_iff _ m0).mp hm0
      rw [length_notMaskAfter] at hm0len
      rw [getD_notMaskAfter mask _ m0 hm0len] at hm0true
      simp only [Bool.and_eq_true, Bool.not_eq_true',
        decide_eq_true_eq] at hm0true
      have hfalse : mask.getD eb false = false := by
        rw [hebm0]
        exact hm0true.1
      have hne : eb ≠ n0 := by
        intro hcontra
        rw [hcontra, hmn0] at hfalse
        cases hfalse
      rw [hq']
      exact pairwise_getD_lt offsets hmono eb n0
        (lt_of_le_of_ne hebn0 hne) (by rw [← hlen]; exact hn0len)
    · rw [Bool.not_eq_true] at hends
      have hebeq : eb = mask.length := by
        rw [heb]
        simp [batchComputeDuration, batchEndIdx, hends]
      exact absurd hn0len (by omega)

/-- Witness for C4 at mask [T,F,T], offsets [0,1,2], timestep 1 h:
both engines compute end index 1 for the first episode, and the next
breach at index 2 exists. -/
theorem c4_next_breach_characterisation_witness :
    ((computeNextBreach [true, false, true] [0, 1, 2] 1).1.isSome = true
      ↔ ∃ i, 1 ≤ i ∧ [true, false, true].getD i false = true) :=
  (c4_next_breach_characterisation [true, false, true] [0, 1, 2] 1 1 1
    rfl
    (by norm_num [List.pairwise_cons])
    (by norm_num [computeFirstBreachAndDuration, findFirst, scanEnd,
      countLeadingTrue])
    (by norm_num [batchComputeDuration, batchEndIdx, notMaskAfter,
      argmaxBool, findFirst, List.range_succ])).1

/-- Claim C9: the formatted supplemental time series contains exactly
the (lead-time, display-value) pairs whose raw value is finite, in the
original order — filtered pairs are absent from both output lists
(whose entries are plain rationals: no null placeholder can appear),
and the two lists stay aligned. -/
theorem c9_formatter_drops_nonfinite (varName : String)
    (leadTimes : List ℚ) (raw : List (Option ℚ)) :
    ((formatSeries varName leadTimes raw).1.zip
        (formatSeries varName leadTimes raw).2
      = (leadTimes.zip raw).filterMap
          (fun p => match p.2 with
            | some x => some (p.1, displaySpecValue varName x)
            | none => none))
    ∧ (formatSeries varName leadTimes raw).1.length
        = (formatSeries varName leadTimes raw).2.length := by
  constructor
  · have hkey : (formatSeries varName leadTimes raw).1.zip
        (formatSeries varName leadTimes raw).2
        = (leadTimes.zip (valuesDisplay varName raw)).filterMap
            (fun p => match p.2 with
              | some v => some (p.1, v)
              | none => none) := by
      simp only [formatSeries]
      exact zip_map_fst_snd_eq _
    rw [hkey, valuesDisplay_eq_map, zip_map_filterMap]
  · simp [formatSeries]

/-- Claim C10 (implicit behaviour the spec's formatter contract omits):
every finite raw value is displayed rounded to exactly two decimal
places, after subtracting 273.15 when the variable is one of the
temperature names ('2t', 't2m', '2m_temperature') and unconverted
otherwise.  Conjuncts: the display transform is the two-decimal
rounding of the conditionally converted value; every value in the
output series is an integer number of hundredths; and round2 moves a
value by at most 1/200, so it is a genuine nearest two-decimal
rounding. -/
theorem c10_display_rounded_two_decimals (varName : String)
    (leadTimes : List ℚ) (raw : List (Option ℚ)) :
    (valuesDisplay varName raw
        = raw.map (Option.map (fun x =>
            round2 (if varName ∈ TEMP_VARIABLES then x - 273.15 else x))))
    ∧ (∀ v ∈ (formatSeries varName leadTimes raw).2,
        ∃ n : ℤ, v = (n : ℚ) / 100)
    ∧ (∀ x : ℚ, |round2 x - x| ≤ 1 / 200) := by
  refine ⟨?_, ?_, ?_⟩
  · rw [valuesDisplay_eq_map]
    refine List.map_congr_left (fun a _ => ?_)
    cases a
    · rfl
    · simp [displaySpecValue_eq_round2]
  · intro v hv
    obtain ⟨x, hx⟩ := mem_formatSeries_snd varName leadTimes raw v hv
    refine ⟨roundHalfEven
      ((if varName ∈ TEMP_VARIABLES then x - 273.15 else x) * 100), ?_⟩
    rw [hx, displaySpecValue_eq_round2]
    rfl
  · intro x
    have h := abs_roundHalfEven_sub_le (x * 100)
    have hrw : round2 x - x
        = ((roundHalfEven (x * 100) : ℚ) - x * 100) / 100 := by
      simp only [round2]
      ring
    rw [hrw, abs_div, abs_of_pos (show (0 : ℚ) < 100 by norm_num)]
    have h2 : |(roundHalfEven (x * 100) : ℚ) - x * 100| / 100
        ≤ (1 / 2) / 100 :=
      (div_le_div_iff_of_pos_right (by norm_num)).mpr h
    linarith

/-- Witness for C10: the Kelvin sample 283.15 for variable 2t is
displayed as 10.00 Celsius, an integer number of hundredths. -/
theorem c10_display_rounded_two_decimals_witness :
    ∃ n : ℤ, (10 : ℚ) = (n : ℚ) / 100 :=
  (c10_display_rounded_two_decimals "2t" [0] [some 283.15]).2.1 10 (by
    norm_num [formatSeries, valuesDisplay, TEMP_VARIABLES, round2,
      roundHalfEven, List.filterMap_cons])

end WhenWX
